import Mathlib

/-!
Shallow embedding of `src/validate_nodes.py` (Comfy-Org/node-diff).

The comparison core consumes two node registries (Python: dicts mapping a node
name to a node class).  A node class exposes, as optional class attributes:
  * `RETURN_TYPES` — a tuple of type-tag strings (read via
    `getattr(cls, "RETURN_TYPES", tuple())`);
  * `INPUT_TYPES`  — a classmethod returning a dict whose optional
    `"required"` key maps input names to input-config tuples (read via a
    direct attribute access `cls.INPUT_TYPES()`, which raises
    `AttributeError` when the attribute is absent);
  * `FUNCTION`     — the entry-point name (read via
    `getattr(cls, "FUNCTION", None)`).

We model optional attributes with `Option`; the `AttributeError` path of
`INPUT_TYPES` makes `compare_input_types` (and hence `compare_nodes`) return
`Except PyErr _` rather than a plain list.  Python dicts are modelled as
association lists (Python dicts preserve insertion order; key uniqueness is
carried as a `Nodup` hypothesis where a claim needs it).
-/

namespace NodeDiff

/-- The enum `BreakingChangeType` of `validate_nodes.py` (its five members,
with their `.value` strings given by `BreakingChangeType.value` below). -/
inductive BreakingChangeType where
  | RETURN_TYPES_CHANGED
  | INPUT_REMOVED
  | INPUT_TYPE_CHANGED
  | NODE_REMOVED
  | FUNCTION_CHANGED
deriving DecidableEq, Repr

/-- The `.value` string of each `BreakingChangeType` member, from the enum
definition in the source. -/
def BreakingChangeType.value : BreakingChangeType → String
  | .RETURN_TYPES_CHANGED => "Return types changed"
  | .INPUT_REMOVED => "Required input removed"
  | .INPUT_TYPE_CHANGED => "Input type changed"
  | .NODE_REMOVED => "Node removed"
  | .FUNCTION_CHANGED => "Entry point function changed"

/-- An input-config value from `INPUT_TYPES()["required"]`, modelling a Python
tuple whose element `[0]` is the type tag (the code only reads `config[0]` and
stores the whole config; a well-formed config is non-empty, so we model it as
a head `typeTag` plus the remaining entries). -/
structure InputSpec where
  typeTag : String
  extra : List String
deriving DecidableEq, Repr

/-- A Python value as stored in `BreakingChange.base_value` / `pr_value`
(typed `Any` in the source, defaulting to `None`). -/
inductive PyVal where
  | none
  | str (s : String)
  | tup (ts : List String)
  | spec (sp : InputSpec)
deriving DecidableEq, Repr

/-- `None` for an absent `Option String`, the bare string otherwise
(how `getattr(cls, "FUNCTION", None)` results are stored). -/
def PyVal.ofOptStr : Option String → PyVal
  | Option.none => PyVal.none
  | Option.some s => PyVal.str s

/-- The dataclass `BreakingChange` of the source (the two value fields default
to `None` in Python; here every constructor call spells all five fields). -/
structure BreakingChange where
  node_name : String
  change_type : BreakingChangeType
  details : String
  base_value : PyVal
  pr_value : PyVal
deriving DecidableEq, Repr

/-- The dict returned by a node class's `INPUT_TYPES()` classmethod: only its
optional `"required"` key is read (via `.get("required", {})`). -/
structure InputTypesDict where
  required : Option (List (String × InputSpec))
deriving DecidableEq, Repr

/-- A node class as the comparators see it: its three relevant class
attributes, each possibly absent. -/
structure NodeClass where
  returnTypes : Option (List String)
  inputTypes : Option InputTypesDict
  function : Option String
deriving DecidableEq, Repr

/-- A registry (`NODE_CLASS_MAPPINGS`): a Python dict from node name to node
class, modelled as an insertion-ordered association list. -/
abbrev Registry := List (String × NodeClass)

/-- The one exception the comparison core can raise: the `AttributeError`
from `cls.INPUT_TYPES()` on a class lacking that attribute. -/
inductive PyErr where
  | attributeError
deriving DecidableEq, Repr

/-- The `details` string of a `RETURN_TYPES_CHANGED` record. -/
def returnTypesDetails : String :=
  "Return types changed or removed. This is a breaking change."

/-- The loop body of `compare_return_types`: iterate over `base_types` with
index `i`; at the first `i` with `i >= len(pr_types)` or `pr_types[i] !=
base_types[i]` append one `RETURN_TYPES_CHANGED` (carrying the full tuples
`bt`, `pt`) and return; falling off the loop returns the empty list. -/
def returnTypesLoop (node_name : String) (bt pt : List String) :
    List String → List String → List BreakingChange
  | [], _ => []
  | _ :: _, [] =>
      [⟨node_name, BreakingChangeType.RETURN_TYPES_CHANGED, returnTypesDetails,
        PyVal.tup bt, PyVal.tup pt⟩]
  | b :: bs, p :: ps =>
      if p ≠ b then
        [⟨node_name, BreakingChangeType.RETURN_TYPES_CHANGED, returnTypesDetails,
          PyVal.tup bt, PyVal.tup pt⟩]
      else returnTypesLoop node_name bt pt bs ps

/-- `compare_return_types` from the source: read both `RETURN_TYPES` with an
empty-tuple default, then run the preservation loop. -/
def compare_return_types (node_name : String) (base_class pr_class : NodeClass) :
    List BreakingChange :=
  let base_types := base_class.returnTypes.getD []
  let pr_types := pr_class.returnTypes.getD []
  returnTypesLoop node_name base_types pr_types base_types pr_types

/-- The `details` f-string of an `INPUT_REMOVED` record. -/
def inputRemovedDetails (input_name : String) : String :=
  "Required input '" ++ input_name ++ "' was removed"

/-- The `details` f-string of an `INPUT_TYPE_CHANGED` record. -/
def inputTypeChangedDetails (input_name : String) : String :=
  "Input type changed for '" ++ input_name ++ "'"

/-- The loop of `compare_input_types` over the base node's required inputs:
an input name absent from `pr_inputs` appends `INPUT_REMOVED` (base config
kept, pr value `None`) and continues; a present name whose config `[0]`
differs appends `INPUT_TYPE_CHANGED` with both type tags. -/
def inputsLoop (node_name : String) (pr_inputs : List (String × InputSpec)) :
    List (String × InputSpec) → List BreakingChange
  | [] => []
  | (input_name, input_config) :: rest =>
      match pr_inputs.lookup input_name with
      | Option.none =>
          ⟨node_name, BreakingChangeType.INPUT_REMOVED,
            inputRemovedDetails input_name,
            PyVal.spec input_config, PyVal.none⟩ :: inputsLoop node_name pr_inputs rest
      | Option.some pr_config =>
          if pr_config.typeTag ≠ input_config.typeTag then
            ⟨node_name, BreakingChangeType.INPUT_TYPE_CHANGED,
              inputTypeChangedDetails input_name,
              PyVal.str input_config.typeTag, PyVal.str pr_config.typeTag⟩ ::
              inputsLoop node_name pr_inputs rest
          else inputsLoop node_name pr_inputs rest

/-- `compare_input_types` from the source.  It calls
`base_class.INPUT_TYPES().get("required", {})` and likewise on the pr class:
the direct attribute access raises `AttributeError` when either class lacks
`INPUT_TYPES` (there is no `getattr` default here, unlike the other two
comparators); a present dict without a `"required"` key defaults to `{}`. -/
def compare_input_types (node_name : String) (base_class pr_class : NodeClass) :
    Except PyErr (List BreakingChange) :=
  match base_class.inputTypes, pr_class.inputTypes with
  | Option.some base_dict, Option.some pr_dict =>
      Except.ok (inputsLoop node_name (pr_dict.required.getD [])
        (base_dict.required.getD []))
  | _, _ => Except.error PyErr.attributeError

/-- `compare_function` from the source: read both `FUNCTION` attributes with
a `None` default and emit one `FUNCTION_CHANGED` carrying both values when
they differ. -/
def compare_function (node_name : String) (base_class pr_class : NodeClass) :
    List BreakingChange :=
  let base_function := base_class.function
  let pr_function := pr_class.function
  if base_function ≠ pr_function then
    [⟨node_name, BreakingChangeType.FUNCTION_CHANGED,
      "Entry point function changed",
      PyVal.ofOptStr base_function, PyVal.ofOptStr pr_function⟩]
  else []

/-- The loop of `compare_nodes` over the base registry's entries: a name
absent from `pr_nodes` appends one `NODE_REMOVED` (both value fields left at
their `None` defaults) and continues to the next name; a retained name runs
the three comparators in order (return types, inputs, entry point), the
input comparison's `AttributeError` propagating and discarding all output. -/
def nodesLoop (pr_nodes : Registry) :
    List (String × NodeClass) → Except PyErr (List BreakingChange)
  | [] => Except.ok []
  | (node_name, base_class) :: rest =>
      match List.lookup node_name pr_nodes with
      | Option.none =>
          match nodesLoop pr_nodes rest with
          | Except.error e => Except.error e
          | Except.ok tail =>
              Except.ok (⟨node_name, BreakingChangeType.NODE_REMOVED,
                "Node was removed", PyVal.none, PyVal.none⟩ :: tail)
      | Option.some pr_class =>
          match compare_input_types node_name base_class pr_class with
          | Except.error e => Except.error e
          | Except.ok inputChanges =>
              match nodesLoop pr_nodes rest with
              | Except.error e => Except.error e
              | Except.ok tail =>
                  Except.ok (compare_return_types node_name base_class pr_class ++
                    inputChanges ++
                    compare_function node_name base_class pr_class ++ tail)

/-- `compare_nodes` from the source, the diff entry point: `Except.error`
models the function raising (Python discards the accumulated `changes` list
when an exception escapes). -/
def compare_nodes (base_nodes pr_nodes : Registry) :
    Except PyErr (List BreakingChange) :=
  nodesLoop pr_nodes base_nodes

/-- One step of the grouping loop of `format_breaking_changes`: a first-seen
`node_name` gains a fresh singleton entry at the end of the (insertion
ordered) dict; a seen one has the change appended to its list. -/
def addChange (acc : List (String × List BreakingChange)) (c : BreakingChange) :
    List (String × List BreakingChange) :=
  if (List.lookup c.node_name acc).isSome then
    acc.map (fun kv => if kv.1 = c.node_name then (kv.1, kv.2 ++ [c]) else kv)
  else acc ++ [(c.node_name, [c])]

/-- The `changes_by_node` dict built by `format_breaking_changes`. -/
def groupByNode (changes : List BreakingChange) :
    List (String × List BreakingChange) :=
  changes.foldl addChange []

/-- Python `str()` of a type-tag string as it appears inside a rendered
tuple: wrapped in single quotes. -/
def pyQuote (s : String) : String := "'" ++ s ++ "'"

/-- Python `str()` of a tuple of type tags (singleton tuples render with a
trailing comma). -/
def pyTupleStr : List String → String
  | [] => "()"
  | [x] => "(" ++ pyQuote x ++ ",)"
  | x :: y :: rest =>
      "(" ++ String.intercalate ", " ((x :: y :: rest).map pyQuote) ++ ")"

/-- Python `str()` of a stored `base_value` / `pr_value`, as interpolated by
the report's f-strings. -/
def PyVal.toPyStr : PyVal → String
  | PyVal.none => "None"
  | PyVal.str s => s
  | PyVal.tup ts => pyTupleStr ts
  | PyVal.spec sp => pyTupleStr (sp.typeTag :: sp.extra)

/-- The lines a single change contributes to the report: its bullet line,
then a Base line when `base_value` is not `None`, then a PR line likewise. -/
def changeLines (c : BreakingChange) : List String :=
  ("  • " ++ c.change_type.value ++ ": " ++ c.details) ::
    ((if c.base_value ≠ PyVal.none then
        ["    - Base: " ++ c.base_value.toPyStr] else []) ++
     (if c.pr_value ≠ PyVal.none then
        ["    - PR: " ++ c.pr_value.toPyStr] else []))

/-- The lines one node's group contributes: its header, each change's lines,
and a trailing empty line. -/
def nodeLines (kv : String × List BreakingChange) : List String :=
  ("Node: " ++ kv.1) :: ((kv.2.map changeLines).flatten ++ [""])

/-- `format_breaking_changes` from the source: the success line on an empty
list, otherwise the header followed by each node's grouped lines, joined
with newlines. -/
def format_breaking_changes (changes : List BreakingChange) : String :=
  if changes = [] then "✅ No breaking changes detected"
  else
    String.intercalate "\n"
      ("❌ Breaking changes detected:\n" :: ((groupByNode changes).map nodeLines).flatten)

/-! ### Characterisation of the return-type check -/

/-- `basePreserved bs ps` is the condition under which the loop of
`compare_return_types` emits nothing: every index of `bs` exists in `ps` and
carries the same tag, i.e. `bs` is a positional prefix of `ps`. -/
def basePreserved : List String → List String → Bool
  | [], _ => true
  | _ :: _, [] => false
  | b :: bs, p :: ps => p == b && basePreserved bs ps

theorem returnTypesLoop_eq (n : String) (bt pt : List String) :
    ∀ bs ps, returnTypesLoop n bt pt bs ps =
      if basePreserved bs ps then []
      else [⟨n, BreakingChangeType.RETURN_TYPES_CHANGED, returnTypesDetails,
        PyVal.tup bt, PyVal.tup pt⟩]
  | [], ps => by simp [returnTypesLoop, basePreserved]
  | b :: bs, [] => by simp [returnTypesLoop, basePreserved]
  | b :: bs, p :: ps => by
    by_cases h : p = b
    · simp [returnTypesLoop, basePreserved, h, returnTypesLoop_eq n bt pt bs ps]
    · simp [returnTypesLoop, basePreserved, h]

theorem compare_return_types_eq (n : String) (b p : NodeClass) :
    compare_return_types n b p =
      if basePreserved (b.returnTypes.getD []) (p.returnTypes.getD []) then []
      else [⟨n, BreakingChangeType.RETURN_TYPES_CHANGED, returnTypesDetails,
        PyVal.tup (b.returnTypes.getD []), PyVal.tup (p.returnTypes.getD [])⟩] := by
  simp [compare_return_types, returnTypesLoop_eq]

theorem basePreserved_iff_isPrefix :
    ∀ bs ps : List String, basePreserved bs ps = true ↔ bs <+: ps
  | [], ps => by simp [basePreserved]
  | b :: bs, [] => by simp [basePreserved]
  | b :: bs, p :: ps => by
    simp only [basePreserved, Bool.and_eq_true, beq_iff_eq,
      basePreserved_iff_isPrefix bs ps, List.cons_prefix_cons]
    exact and_congr_left (fun _ => eq_comm)

theorem basePreserved_of_eq_length (bs ps : List String)
    (h : bs.length = ps.length) : basePreserved bs ps = true ↔ bs = ps := by
  rw [basePreserved_iff_isPrefix]
  constructor
  · intro hp
    exact List.prefix_iff_eq_take.mp hp |>.trans (by rw [h, List.take_length])
  · rintro rfl
    exact List.prefix_refl bs

/-! ### C1 -/

/-- A base node whose `RETURN_TYPES` is `("STRING", "INT", "FLOAT")`, with an
`INPUT_TYPES` returning `{}` and no `FUNCTION`. -/
def c1BaseClass : NodeClass :=
  ⟨Option.some ["STRING", "INT", "FLOAT"], Option.some ⟨Option.none⟩, Option.none⟩

/-- The same node with `RETURN_TYPES` extended to
`("STRING", "INT", "FLOAT", "BOOL")`. -/
def c1ExtClass : NodeClass :=
  ⟨Option.some ["STRING", "INT", "FLOAT", "BOOL"], Option.some ⟨Option.none⟩,
    Option.none⟩

/-- C1, counterexample: on the claim's own example — base return types
`("STRING", "INT", "FLOAT")` against pr `("STRING", "INT", "FLOAT", "BOOL")`
for a node present in both registries — the diff emits no change at all
(`Except.ok []`), not "exactly one RETURN_TYPES_CHANGED": the code only
checks that each base position is preserved in pr, so a pr sequence that
extends the base sequence is accepted silently. -/
theorem c1_extension_not_flagged :
    compare_nodes [("Node", c1BaseClass)] [("Node", c1ExtClass)] =
      Except.ok [] := by
  rfl

/-- C1, amended: for a node present in both registries with return-type
sequences of different lengths, either the base sequence is a positional
prefix of the pr sequence (pr extends base) and no return-type change is
emitted, or it is not and exactly one `RETURN_TYPES_CHANGED` (and no other
return-type change) is emitted for that node. -/
theorem c1_return_type_length_change (n : String) (b p : NodeClass)
    (h : (b.returnTypes.getD []).length ≠ (p.returnTypes.getD []).length) :
    (b.returnTypes.getD [] <+: p.returnTypes.getD [] ∧
      compare_return_types n b p = []) ∨
    (¬ b.returnTypes.getD [] <+: p.returnTypes.getD [] ∧
      compare_return_types n b p =
        [⟨n, BreakingChangeType.RETURN_TYPES_CHANGED, returnTypesDetails,
          PyVal.tup (b.returnTypes.getD []), PyVal.tup (p.returnTypes.getD [])⟩]) := by
  rw [compare_return_types_eq]
  by_cases hp : b.returnTypes.getD [] <+: p.returnTypes.getD []
  · left
    refine ⟨hp, ?_⟩
    rw [if_pos ((basePreserved_iff_isPrefix _ _).mpr hp)]
  · right
    refine ⟨hp, ?_⟩
    rw [if_neg (fun hb => hp ((basePreserved_iff_isPrefix _ _).mp hb))]

/-- Witness for `c1_return_type_length_change` at the truncation input
`("STRING", "INT", "FLOAT")` vs `("STRING", "INT")`. -/
theorem c1_return_type_length_change_witness :
    (["STRING", "INT", "FLOAT"] <+: ["STRING", "INT"] ∧
      compare_return_types "Node"
        ⟨Option.some ["STRING", "INT", "FLOAT"], Option.none, Option.none⟩
        ⟨Option.some ["STRING", "INT"], Option.none, Option.none⟩ = []) ∨
    (¬ ["STRING", "INT", "FLOAT"] <+: ["STRING", "INT"] ∧
      compare_return_types "Node"
        ⟨Option.some ["STRING", "INT", "FLOAT"], Option.none, Option.none⟩
        ⟨Option.some ["STRING", "INT"], Option.none, Option.none⟩ =
        [⟨"Node", BreakingChangeType.RETURN_TYPES_CHANGED, returnTypesDetails,
          PyVal.tup ["STRING", "INT", "FLOAT"], PyVal.tup ["STRING", "INT"]⟩]) :=
  c1_return_type_length_change "Node"
    ⟨Option.some ["STRING", "INT", "FLOAT"], Option.none, Option.none⟩
    ⟨Option.some ["STRING", "INT"], Option.none, Option.none⟩ (by decide)

/-! ### C2 -/

/-- C2, counterexample: on the claim's reorder example — equal-length
sequences `("STRING", "INT", "FLOAT")` vs `("INT", "STRING", "FLOAT")` with
equal multisets but different order — the code emits a change whose kind is
`RETURN_TYPES_CHANGED`, not a distinct `RETURN_TYPES_REORDERED` kind: the
source's `BreakingChangeType` enum has no reorder member at all, and the
positional loop cannot distinguish reordering from retyping. -/
theorem c2_reorder_is_plain_change :
    compare_return_types "Node"
      ⟨Option.some ["STRING", "INT", "FLOAT"], Option.none, Option.none⟩
      ⟨Option.some ["INT", "STRING", "FLOAT"], Option.none, Option.none⟩ =
      [⟨"Node", BreakingChangeType.RETURN_TYPES_CHANGED, returnTypesDetails,
        PyVal.tup ["STRING", "INT", "FLOAT"],
        PyVal.tup ["INT", "STRING", "FLOAT"]⟩] := by
  rfl

/-- C2, amended: for a node present in both registries with equal-length
return-type sequences, any positional difference — whether the multisets
differ or merely the order — emits exactly one `RETURN_TYPES_CHANGED`
(there is no distinct reorder kind), and identical sequences emit no
return-type change. -/
theorem c2_return_type_equal_length (n : String) (b p : NodeClass)
    (h : (b.returnTypes.getD []).length = (p.returnTypes.getD []).length) :
    compare_return_types n b p =
      if b.returnTypes.getD [] = p.returnTypes.getD [] then []
      else [⟨n, BreakingChangeType.RETURN_TYPES_CHANGED, returnTypesDetails,
        PyVal.tup (b.returnTypes.getD []), PyVal.tup (p.returnTypes.getD [])⟩] := by
  rw [compare_return_types_eq]
  by_cases he : b.returnTypes.getD [] = p.returnTypes.getD []
  · rw [if_pos he, if_pos ((basePreserved_of_eq_length _ _ h).mpr he)]
  · rw [if_neg he,
      if_neg (fun hb => he ((basePreserved_of_eq_length _ _ h).mp hb))]

/-- Witness for `c2_return_type_equal_length` at the same-length retyping
input `("STRING", "BOOL", "FLOAT")` vs `("STRING", "INT", "FLOAT")`. -/
theorem c2_return_type_equal_length_witness :
    compare_return_types "Node"
      ⟨Option.some ["STRING", "BOOL", "FLOAT"], Option.none, Option.none⟩
      ⟨Option.some ["STRING", "INT", "FLOAT"], Option.none, Option.none⟩ =
      if (["STRING", "BOOL", "FLOAT"] : List String) = ["STRING", "INT", "FLOAT"]
      then []
      else [⟨"Node", BreakingChangeType.RETURN_TYPES_CHANGED, returnTypesDetails,
        PyVal.tup ["STRING", "BOOL", "FLOAT"],
        PyVal.tup ["STRING", "INT", "FLOAT"]⟩] :=
  c2_return_type_equal_length "Node"
    ⟨Option.some ["STRING", "BOOL", "FLOAT"], Option.none, Option.none⟩
    ⟨Option.some ["STRING", "INT", "FLOAT"], Option.none, Option.none⟩ (by decide)

/-! ### C8 -/

/-- C8, confirmed: `compare_function` emits exactly one `FUNCTION_CHANGED`
carrying both entry-point values if and only if the two `FUNCTION` attributes
differ, with an absent attribute read as `None` and `None` distinct from
every name — so rename (`some a` vs `some b`), removal (`some a` vs `none`)
and addition (`none` vs `some b`) are all flagged symmetrically. -/
theorem c8_function_changed_iff (n : String) (b p : NodeClass) :
    compare_function n b p =
      if b.function = p.function then []
      else [⟨n, BreakingChangeType.FUNCTION_CHANGED,
        "Entry point function changed",
        PyVal.ofOptStr b.function, PyVal.ofOptStr p.function⟩] := by
  by_cases h : b.function = p.function <;> simp [compare_function, h]

/-! ### C3 -/

/-- A node class with none of the three attributes defined (in Python: a
class body with no `RETURN_TYPES`, no `INPUT_TYPES`, no `FUNCTION`, like the
test suite's `NoReturnTypesNode`). -/
def bareClass : NodeClass := ⟨Option.none, Option.none, Option.none⟩

/-- C3, code bug: the diff is not total.  For the well-formed registry
`{"A": bareClass}` — whose node merely lacks the `INPUT_TYPES` attribute —
`compare_nodes` applied to the registry and itself raises `AttributeError`
instead of normalizing the absent field to an empty mapping: the source
reads `RETURN_TYPES` and `FUNCTION` through `getattr` with a default but
calls `base_class.INPUT_TYPES()` directly. -/
theorem c3_missing_input_types_raises :
    compare_nodes [("A", bareClass)] [("A", bareClass)] =
      Except.error PyErr.attributeError := by
  rfl

/-! ### C4 -/

/-- The `"required"` input mapping of a node class whose `INPUT_TYPES` is
defined, or an empty mapping for the `getD` default (only meaningful when
`inputTypes` is `some`). -/
def requiredOf (cls : NodeClass) : List (String × InputSpec) :=
  ((cls.inputTypes.getD ⟨Option.none⟩).required.getD [])

theorem lookup_of_mem_of_nodup {α : Type} [DecidableEq α] {β : Type}
    {l : List (α × β)} {a : α} {b : β}
    (hnd : (l.map Prod.fst).Nodup) (hm : (a, b) ∈ l) :
    List.lookup a l = Option.some b := by
  induction l with
  | nil => cases hm
  | cons e t ih =>
    obtain ⟨x, y⟩ := e
    simp only [List.map_cons, List.nodup_cons] at hnd
    rcases List.mem_cons.mp hm with he | ht
    · rw [Prod.mk.injEq] at he
      obtain ⟨rfl, rfl⟩ := he
      simp [List.lookup]
    · have hax : (a == x) = false :=
        beq_eq_false_iff_ne.mpr
          (fun hax => hnd.1 (hax ▸ List.mem_map_of_mem Prod.fst ht))
      simp [List.lookup, hax, ih hnd.2 ht]

theorem inputsLoop_nil_of_agree (n : String)
    (pr : List (String × InputSpec)) (l : List (String × InputSpec))
    (hag : ∀ e ∈ l, ∃ cfg, List.lookup e.1 pr = Option.some cfg ∧
        cfg.typeTag = (e.2 : InputSpec).typeTag) :
    inputsLoop n pr l = [] := by
  induction l with
  | nil => rfl
  | cons e rest ih =>
    obtain ⟨nm, c⟩ := e
    obtain ⟨cfg, hcfg, htag⟩ := hag (nm, c) (List.mem_cons_self _ _)
    have hrest := ih (fun e he => hag e (List.mem_cons_of_mem _ he))
    simpa [inputsLoop, hcfg, htag] using hrest

theorem basePreserved_refl (l : List String) : basePreserved l l = true :=
  (basePreserved_iff_isPrefix l l).mpr (List.prefix_refl l)

theorem compare_return_types_self (n : String) (c : NodeClass) :
    compare_return_types n c c = [] := by
  rw [compare_return_types_eq, if_pos (basePreserved_refl _)]

theorem compare_function_self (n : String) (c : NodeClass) :
    compare_function n c c = [] := by
  simp [compare_function]

theorem nodesLoop_self (R : Registry) (l : List (String × NodeClass))
    (hall : ∀ e ∈ l, List.lookup e.1 R = Option.some e.2 ∧
        (e.2 : NodeClass).inputTypes.isSome = true ∧
        ((requiredOf e.2).map Prod.fst).Nodup) :
    nodesLoop R l = Except.ok [] := by
  induction l with
  | nil => rfl
  | cons e rest ih =>
    obtain ⟨nm, cls⟩ := e
    obtain ⟨hl, hs, hnd⟩ := hall (nm, cls) (List.mem_cons_self _ _)
    obtain ⟨d, hd⟩ := Option.isSome_iff_exists.mp hs
    simp only at hl hd
    have hreq : requiredOf (nm, cls).2 = d.required.getD [] := by
      simp [requiredOf, hd]
    have hin : compare_input_types nm cls cls = Except.ok [] := by
      simp only [compare_input_types, hd]
      congr 1
      refine inputsLoop_nil_of_agree nm _ _ (fun e he => ⟨e.2, ?_, rfl⟩)
      exact lookup_of_mem_of_nodup (by rw [hreq] at hnd; exact hnd) he
    have htail : nodesLoop R rest = Except.ok [] :=
      ih (fun e he => hall e (List.mem_cons_of_mem _ he))
    simp only [nodesLoop, hl, hin, htail, compare_return_types_self,
      compare_function_self]
    rfl

/-- A well-formed node class: `RETURN_TYPES ("STRING",)`, an `INPUT_TYPES`
returning `{"required": {"seed": ("INT",)}}`, `FUNCTION "process"`. -/
def processClass : NodeClass :=
  ⟨Option.some ["STRING"], Option.some ⟨Option.some [("seed", ⟨"INT", []⟩)]⟩,
    Option.some "process"⟩

/-- C4, code bug: reflexivity of the diff holds only away from the
`INPUT_TYPES` slip.  First conjunct: for every registry with unique node
names whose node classes all define `INPUT_TYPES` (with unique required
input names — both key sets are Python-dict keys, hence unique), the diff of
the registry against itself is `Except.ok []`.  Second conjunct: on the
registry `{"Good": processClass, "Bad": bareClass}`, whose second node lacks
`INPUT_TYPES`, the self-diff instead raises `AttributeError`, violating
`diff(R, R) = []`. -/
theorem c4_identity_diff (R : Registry) :
    ((R.map Prod.fst).Nodup →
      (∀ e ∈ R, (e.2 : NodeClass).inputTypes.isSome = true ∧
        ((requiredOf e.2).map Prod.fst).Nodup) →
      compare_nodes R R = Except.ok []) ∧
    compare_nodes [("Good", processClass), ("Bad", bareClass)]
        [("Good", processClass), ("Bad", bareClass)] =
      Except.error PyErr.attributeError := by
  constructor
  · intro hnd hall
    exact nodesLoop_self R R
      (fun e he => ⟨lookup_of_mem_of_nodup
        (by simpa using hnd) (by simpa using he), hall e he⟩)
  · rfl

/-- Witness for `c4_identity_diff`: its first conjunct applied to the
concrete one-node registry `{"Good": processClass}`. -/
theorem c4_identity_diff_witness :
    compare_nodes [("Good", processClass)] [("Good", processClass)] =
      Except.ok [] :=
  (c4_identity_diff [("Good", processClass)]).1 (by decide)
    (by decide)

/-! ### C5 -/

theorem node_name_of_mem_compare_return_types {c : BreakingChange}
    {n : String} {b p : NodeClass} (hc : c ∈ compare_return_types n b p) :
    c.node_name = n := by
  rw [compare_return_types_eq] at hc
  split at hc
  · cases hc
  · rw [List.mem_singleton] at hc
    subst hc
    rfl

theorem node_name_of_mem_inputsLoop {c : BreakingChange} {n : String}
    {pr : List (String × InputSpec)} {l : List (String × InputSpec)}
    (hc : c ∈ inputsLoop n pr l) : c.node_name = n := by
  induction l with
  | nil => cases hc
  | cons e rest ih =>
    obtain ⟨nm, cfg⟩ := e
    simp only [inputsLoop] at hc
    split at hc
    · rcases List.mem_cons.mp hc with rfl | ht
      · rfl
      · exact ih ht
    · split at hc
      · rcases List.mem_cons.mp hc with rfl | ht
        · rfl
        · exact ih ht
      · exact ih hc

theorem node_name_of_mem_compare_input_types {c : BreakingChange}
    {n : String} {b p : NodeClass} {out : List BreakingChange}
    (hok : compare_input_types n b p = Except.ok out) (hc : c ∈ out) :
    c.node_name = n := by
  unfold compare_input_types at hok
  split at hok
  · rw [Except.ok.injEq] at hok
    subst hok
    exact node_name_of_mem_inputsLoop hc
  · cases hok

theorem node_name_of_mem_compare_function {c : BreakingChange}
    {n : String} {b p : NodeClass} (hc : c ∈ compare_function n b p) :
    c.node_name = n := by
  simp only [compare_function] at hc
  split at hc
  · rw [List.mem_singleton] at hc
    subst hc
    rfl
  · cases hc

theorem node_name_of_mem_nodesLoop {pr : Registry}
    {l : List (String × NodeClass)} {cs : List BreakingChange}
    (h : nodesLoop pr l = Except.ok cs) {c : BreakingChange} (hc : c ∈ cs) :
    c.node_name ∈ l.map Prod.fst := by
  induction l generalizing cs with
  | nil =>
    rw [nodesLoop, Except.ok.injEq] at h
    subst h
    cases hc
  | cons e rest ih =>
    obtain ⟨nm, cls⟩ := e
    rcases hl : List.lookup nm pr with _ | pr_class
    · rcases htail : nodesLoop pr rest with e' | tail
      · simp [nodesLoop, hl, htail] at h
      · simp only [nodesLoop, hl, htail, Except.ok.injEq] at h
        subst h
        rcases List.mem_cons.mp hc with rfl | ht
        · exact List.mem_cons_self _ _
        · exact List.mem_cons_of_mem _ (ih htail ht)
    · rcases hin : compare_input_types nm cls pr_class with e' | inputChanges
      · simp [nodesLoop, hl, hin] at h
      · rcases htail : nodesLoop pr rest with e' | tail
        · simp [nodesLoop, hl, hin, htail] at h
        · simp only [nodesLoop, hl, hin, htail, Except.ok.injEq] at h
          subst h
          simp only [List.mem_append] at hc
          rcases hc with ((hc | hc) | hc) | hc
          · exact (node_name_of_mem_compare_return_types hc) ▸
              List.mem_cons_self _ _
          · exact (node_name_of_mem_compare_input_types hin hc) ▸
              List.mem_cons_self _ _
          · exact (node_name_of_mem_compare_function hc) ▸
              List.mem_cons_self _ _
          · exact List.mem_cons_of_mem _ (ih htail hc)

/-- The single record `NODE_REMOVED` leaves for a removed node (both value
fields at their `None` defaults). -/
def nodeRemovedChange (n : String) : BreakingChange :=
  ⟨n, BreakingChangeType.NODE_REMOVED, "Node was removed", PyVal.none, PyVal.none⟩

/-- C5, confirmed: when a node name is present in `base` (with registry keys
unique, as Python dict keys are) and absent from `pr`, any successful diff
emits exactly the one `NODE_REMOVED` record for that node and nothing else —
the removal branch `continue`s past the return-type, input and entry-point
checks, whatever the node's other fields hold. -/
theorem c5_node_removal_dominates (base pr : Registry) (n : String)
    (cls : NodeClass) (hmem : (n, cls) ∈ base)
    (hnd : (base.map Prod.fst).Nodup)
    (habs : List.lookup n pr = Option.none)
    (cs : List BreakingChange)
    (hok : compare_nodes base pr = Except.ok cs) :
    cs.filter (fun c => c.node_name = n) = [nodeRemovedChange n] := by
  unfold compare_nodes at hok
  induction base generalizing cs with
  | nil => cases hmem
  | cons e rest ih =>
    obtain ⟨nm, cls'⟩ := e
    simp only [List.map_cons, List.nodup_cons] at hnd
    rcases List.mem_cons.mp hmem with he | ht
    · rw [Prod.mk.injEq] at he
      obtain ⟨rfl, rfl⟩ := he
      rcases htail : nodesLoop pr rest with e' | tail
      · simp [nodesLoop, habs, htail] at hok
      · simp only [nodesLoop, habs, htail, Except.ok.injEq] at hok
        subst hok
        have htn : tail.filter (fun c => c.node_name = n) = [] := by
          refine List.filter_eq_nil_iff.mpr (fun c hc => ?_)
          have := node_name_of_mem_nodesLoop htail hc
          simp only [decide_eq_true_eq]
          intro hcn
          exact hnd.1 (hcn ▸ this)
        simp [List.filter, nodeRemovedChange, htn]
    · have hne : nm ≠ n := by
        intro htr
        exact hnd.1 (htr ▸ (List.mem_map_of_mem Prod.fst ht))
      rcases hl : List.lookup nm pr with _ | pr_class
      · rcases htail : nodesLoop pr rest with e' | tail
        · simp [nodesLoop, hl, htail] at hok
        · simp only [nodesLoop, hl, htail, Except.ok.injEq] at hok
          subst hok
          have hmain := ih ht hnd.2 tail htail
          simpa [List.filter, hne] using hmain
      · rcases hin : compare_input_types nm cls' pr_class with e' | inputChanges
        · simp [nodesLoop, hl, hin] at hok
        · rcases htail : nodesLoop pr rest with e' | tail
          · simp [nodesLoop, hl, hin, htail] at hok
          · simp only [nodesLoop, hl, hin, htail, Except.ok.injEq] at hok
            subst hok
            have hmain := ih ht hnd.2 tail htail
            have h1 : (compare_return_types nm cls' pr_class).filter
                (fun c => c.node_name = n) = [] :=
              List.filter_eq_nil_iff.mpr (fun c hc => by
                simp only [decide_eq_true_eq]
                exact fun hcn =>
                  hne ((node_name_of_mem_compare_return_types hc) ▸ hcn))
            have h2 : inputChanges.filter (fun c => c.node_name = n) = [] :=
              List.filter_eq_nil_iff.mpr (fun c hc => by
                simp only [decide_eq_true_eq]
                exact fun hcn =>
                  hne ((node_name_of_mem_compare_input_types hin hc) ▸ hcn))
            have h3 : (compare_function nm cls' pr_class).filter
                (fun c => c.node_name = n) = [] :=
              List.filter_eq_nil_iff.mpr (fun c hc => by
                simp only [decide_eq_true_eq]
                exact fun hcn =>
                  hne ((node_name_of_mem_compare_function hc) ▸ hcn))
            simp [List.filter_append, h1, h2, h3, hmain]

/-- Witness for `c5_node_removal_dominates`: base `{"Resize": processClass}`,
pr `{}` — the diff's output, filtered to node `"Resize"`, is exactly the one
`NODE_REMOVED` record. -/
theorem c5_node_removal_dominates_witness :
    ([nodeRemovedChange "Resize"].filter (fun c => c.node_name = "Resize")) =
      [nodeRemovedChange "Resize"] :=
  c5_node_removal_dominates [("Resize", processClass)] [] "Resize"
    processClass (by decide) (by decide) (by decide)
    [nodeRemovedChange "Resize"] (by rfl)

/-! ### C6 -/

theorem lookup_snoc_of_ne {β : Type} {a n : String} (h : a ≠ n)
    (l : List (String × β)) (c : β) :
    List.lookup a (l ++ [(n, c)]) = List.lookup a l := by
  induction l with
  | nil => simp [List.lookup, beq_eq_false_iff_ne.mpr h]
  | cons e t ih =>
    obtain ⟨x, y⟩ := e
    cases hax : a == x <;> simp [List.lookup, hax, ih]

/-- C6, confirmed: additions never produce a breaking change.  First
conjunct: adding a node under a name absent from `base` to the pr registry
leaves the diff's result (including its error behaviour) unchanged.  Second
conjunct: adding a required input under a name absent from the base node's
required inputs to the pr node's required inputs leaves the input
comparison's output unchanged. -/
theorem c6_additions_never_breaking :
    (∀ (base pr : Registry) (n : String) (cls : NodeClass),
      n ∉ base.map Prod.fst →
      compare_nodes base (pr ++ [(n, cls)]) = compare_nodes base pr) ∧
    (∀ (n : String) (baseReq prReq : List (String × InputSpec))
      (iname : String) (cfg : InputSpec),
      iname ∉ baseReq.map Prod.fst →
      inputsLoop n (prReq ++ [(iname, cfg)]) baseReq =
        inputsLoop n prReq baseReq) := by
  constructor
  · intro base pr n cls habs
    unfold compare_nodes
    induction base with
    | nil => rfl
    | cons e rest ih =>
      obtain ⟨nm, c⟩ := e
      simp only [List.map_cons, List.mem_cons, not_or] at habs
      have hlk : List.lookup nm (pr ++ [(n, cls)]) = List.lookup nm pr :=
        lookup_snoc_of_ne (fun h => habs.1 h.symm) pr cls
      have hrest := ih habs.2
      simp only [nodesLoop, hlk, hrest]
  · intro n baseReq prReq iname cfg habs
    induction baseReq with
    | nil => rfl
    | cons e rest ih =>
      obtain ⟨nm, c⟩ := e
      simp only [List.map_cons, List.mem_cons, not_or] at habs
      have hlk : List.lookup nm (prReq ++ [(iname, cfg)]) =
          List.lookup nm prReq :=
        lookup_snoc_of_ne (fun h => habs.1 h.symm) prReq cfg
      have hrest := ih habs.2
      simp only [inputsLoop, hlk, hrest]

/-- Witness for `c6_additions_never_breaking`: a node `"New"` added to pr
beside `"Old"`, and a required input `"extra"` added to a pr node. -/
theorem c6_additions_never_breaking_witness :
    compare_nodes [("Old", processClass)]
        ([("Old", processClass)] ++ [("New", bareClass)]) =
      compare_nodes [("Old", processClass)] [("Old", processClass)] ∧
    inputsLoop "Old" ([("seed", ⟨"INT", []⟩)] ++ [("extra", ⟨"STRING", []⟩)])
        [("seed", ⟨"INT", []⟩)] =
      inputsLoop "Old" [("seed", ⟨"INT", []⟩)] [("seed", ⟨"INT", []⟩)] :=
  ⟨c6_additions_never_breaking.1 [("Old", processClass)] [("Old", processClass)]
      "New" bareClass (by decide),
    c6_additions_never_breaking.2 "Old" [("seed", ⟨"INT", []⟩)]
      [("seed", ⟨"INT", []⟩)] "extra" ⟨"STRING", []⟩ (by decide)⟩

/-! ### C7 -/

/-- The contribution of one base required input to the input comparison:
`INPUT_REMOVED` when its name is absent from the pr inputs, `INPUT_TYPE_CHANGED`
when present with a different type tag, nothing otherwise (the body of one
iteration of the loop in `compare_input_types`). -/
def inputStep (node_name : String) (pr_inputs : List (String × InputSpec))
    (e : String × InputSpec) : Option BreakingChange :=
  match pr_inputs.lookup e.1 with
  | Option.none =>
      Option.some ⟨node_name, BreakingChangeType.INPUT_REMOVED,
        inputRemovedDetails e.1, PyVal.spec e.2, PyVal.none⟩
  | Option.some pr_config =>
      if pr_config.typeTag ≠ (e.2 : InputSpec).typeTag then
        Option.some ⟨node_name, BreakingChangeType.INPUT_TYPE_CHANGED,
          inputTypeChangedDetails e.1,
          PyVal.str (e.2 : InputSpec).typeTag, PyVal.str pr_config.typeTag⟩
      else Option.none

theorem inputsLoop_eq_filterMap (n : String)
    (pr : List (String × InputSpec)) (l : List (String × InputSpec)) :
    inputsLoop n pr l = l.filterMap (inputStep n pr) := by
  induction l with
  | nil => rfl
  | cons e rest ih =>
    obtain ⟨nm, cfg⟩ := e
    rcases hlk : List.lookup nm pr with _ | pr_config
    · simp [inputsLoop, List.filterMap_cons, inputStep, hlk, ih]
    · by_cases htag : pr_config.typeTag = cfg.typeTag
      · simp [inputsLoop, List.filterMap_cons, inputStep, hlk, htag, ih]
      · simp [inputsLoop, List.filterMap_cons, inputStep, hlk, htag, ih]

/-- C7, confirmed: for a node present in both registries (so the input
comparison returned `Except.ok out`) and a required input of the base node:
absence of its name from the pr node's required inputs puts `INPUT_REMOVED`
(base input config kept, pr value `None`) in `out`, and presence under a
different type tag puts `INPUT_TYPE_CHANGED` (base and pr tags recorded) in
`out`. -/
theorem c7_input_removed_or_retyped (n : String) (b p : NodeClass)
    (out : List BreakingChange)
    (hok : compare_input_types n b p = Except.ok out)
    (bd pd : InputTypesDict)
    (hb : b.inputTypes = Option.some bd) (hp : p.inputTypes = Option.some pd)
    (iname : String) (cfg : InputSpec)
    (hmem : (iname, cfg) ∈ bd.required.getD []) :
    (List.lookup iname (pd.required.getD []) = Option.none →
      (⟨n, BreakingChangeType.INPUT_REMOVED, inputRemovedDetails iname,
        PyVal.spec cfg, PyVal.none⟩ : BreakingChange) ∈ out) ∧
    (∀ prCfg, List.lookup iname (pd.required.getD []) = Option.some prCfg →
      prCfg.typeTag ≠ cfg.typeTag →
      (⟨n, BreakingChangeType.INPUT_TYPE_CHANGED, inputTypeChangedDetails iname,
        PyVal.str cfg.typeTag, PyVal.str prCfg.typeTag⟩ : BreakingChange) ∈ out) := by
  have hout : out = inputsLoop n (pd.required.getD []) (bd.required.getD []) := by
    unfold compare_input_types at hok
    rw [hb, hp] at hok
    rw [Except.ok.injEq] at hok
    exact hok.symm
  subst hout
  rw [inputsLoop_eq_filterMap]
  constructor
  · intro habs
    exact List.mem_filterMap.mpr
      ⟨(iname, cfg), hmem, by simp [inputStep, habs]⟩
  · intro prCfg hpr htag
    exact List.mem_filterMap.mpr
      ⟨(iname, cfg), hmem, by simp [inputStep, hpr, htag]⟩

/-- Witness for `c7_input_removed_or_retyped`: base required inputs
`{"seed": ("INT",), "mask": ("MASK",)}`, pr required inputs
`{"mask": ("IMAGE",)}` — `"seed"` was removed and `"mask"` was retyped. -/
theorem c7_input_removed_or_retyped_witness :
    (List.lookup "seed" [("mask", (⟨"IMAGE", []⟩ : InputSpec))] = Option.none →
      (⟨"N", BreakingChangeType.INPUT_REMOVED, inputRemovedDetails "seed",
        PyVal.spec ⟨"INT", []⟩, PyVal.none⟩ : BreakingChange) ∈
        inputsLoop "N" [("mask", ⟨"IMAGE", []⟩)]
          [("seed", ⟨"INT", []⟩), ("mask", ⟨"MASK", []⟩)]) ∧
    (∀ prCfg, List.lookup "seed" [("mask", (⟨"IMAGE", []⟩ : InputSpec))] =
        Option.some prCfg →
      prCfg.typeTag ≠ "INT" →
      (⟨"N", BreakingChangeType.INPUT_TYPE_CHANGED, inputTypeChangedDetails "seed",
        PyVal.str "INT", PyVal.str prCfg.typeTag⟩ : BreakingChange) ∈
        inputsLoop "N" [("mask", ⟨"IMAGE", []⟩)]
          [("seed", ⟨"INT", []⟩), ("mask", ⟨"MASK", []⟩)]) :=
  c7_input_removed_or_retyped "N"
    ⟨Option.none, Option.some ⟨Option.some [("seed", ⟨"INT", []⟩), ("mask", ⟨"MASK", []⟩)]⟩, Option.none⟩
    ⟨Option.none, Option.some ⟨Option.some [("mask", ⟨"IMAGE", []⟩)]⟩, Option.none⟩
    (inputsLoop "N" [("mask", ⟨"IMAGE", []⟩)]
      [("seed", ⟨"INT", []⟩), ("mask", ⟨"MASK", []⟩)])
    (by rfl) ⟨Option.some [("seed", ⟨"INT", []⟩), ("mask", ⟨"MASK", []⟩)]⟩
    ⟨Option.some [("mask", ⟨"IMAGE", []⟩)]⟩ (by rfl) (by rfl)
    "seed" ⟨"INT", []⟩ (by decide)

/-! ### C10 -/

theorem inputRemovedDetails_injective {a b : String}
    (h : inputRemovedDetails a = inputRemovedDetails b) : a = b := by
  have hd := congrArg String.data h
  simp only [inputRemovedDetails, String.data_append] at hd
  exact String.ext (List.append_cancel_left (List.append_cancel_right hd))

theorem inputTypeChangedDetails_injective {a b : String}
    (h : inputTypeChangedDetails a = inputTypeChangedDetails b) : a = b := by
  have hd := congrArg String.data h
  simp only [inputTypeChangedDetails, String.data_append] at hd
  exact String.ext (List.append_cancel_left (List.append_cancel_right hd))

theorem inputRemovedDetails_ne_inputTypeChangedDetails (a b : String) :
    inputRemovedDetails a ≠ inputTypeChangedDetails b := by
  intro h
  have hd := congrArg (fun s => s.data.head?) h
  simp only [inputRemovedDetails, inputTypeChangedDetails,
    String.data_append] at hd
  have h1 : (("Required input '".data ++ a.data) ++
      "' was removed".data).head? = Option.some 'R' := rfl
  have h2 : (("Input type changed for '".data ++ b.data) ++
      "'".data).head? = Option.some 'I' := rfl
  rw [h1, h2] at hd
  exact absurd (Option.some.inj hd) (by decide)

theorem inputStep_details {n : String} {pr : List (String × InputSpec)}
    {e : String × InputSpec} {c : BreakingChange}
    (h : inputStep n pr e = Option.some c) :
    c.details = inputRemovedDetails e.1 ∨
      c.details = inputTypeChangedDetails e.1 := by
  unfold inputStep at h
  split at h
  · rw [Option.some.injEq] at h
    subst h
    left
    rfl
  · split at h
    · rw [Option.some.injEq] at h
      subst h
      right
      rfl
    · cases h

theorem no_cross_details {d nm name : String} (hne : nm ≠ name)
    (hdet : d = inputRemovedDetails nm ∨ d = inputTypeChangedDetails nm) :
    ¬(d = inputRemovedDetails name ∨ d = inputTypeChangedDetails name) := by
  rintro (h1 | h1) <;> rcases hdet with h2 | h2
  · exact hne (inputRemovedDetails_injective (h2.symm.trans h1))
  · exact inputRemovedDetails_ne_inputTypeChangedDetails name nm
      (h1.symm.trans h2)
  · exact inputRemovedDetails_ne_inputTypeChangedDetails nm name
      (h2.symm.trans h1)
  · exact hne (inputTypeChangedDetails_injective (h2.symm.trans h1))

theorem inputChanges_for_absent_name (n name : String)
    (pr : List (String × InputSpec)) (l : List (String × InputSpec))
    (hm : name ∉ l.map Prod.fst) :
    (l.filterMap (inputStep n pr)).filter
      (fun c => c.details = inputRemovedDetails name ∨
        c.details = inputTypeChangedDetails name) = [] := by
  refine List.filter_eq_nil_iff.mpr (fun c hc => ?_)
  obtain ⟨e, hel, hst⟩ := List.mem_filterMap.mp hc
  have hne : e.1 ≠ name := fun h => hm (h ▸ List.mem_map_of_mem Prod.fst hel)
  simp only [decide_eq_true_eq]
  exact fun hP => no_cross_details hne (inputStep_details hst) hP

theorem inputChanges_for_name_le_one (n name : String)
    (pr : List (String × InputSpec)) :
    ∀ l : List (String × InputSpec), (l.map Prod.fst).Nodup →
      ((l.filterMap (inputStep n pr)).filter
        (fun c => c.details = inputRemovedDetails name ∨
          c.details = inputTypeChangedDetails name)).length ≤ 1 := by
  intro l
  induction l with
  | nil => intro _; simp
  | cons e rest ih =>
    intro hnd
    obtain ⟨nm, cfg⟩ := e
    simp only [List.map_cons, List.nodup_cons] at hnd
    rw [List.filterMap_cons]
    cases hstep : inputStep n pr (nm, cfg) with
    | none => exact ih hnd.2
    | some c =>
      by_cases hnm : nm = name
      · subst hnm
        have hrest := inputChanges_for_absent_name n nm pr rest hnd.1
        rw [List.filter_cons]
        split
        · rw [hrest]
          simp
        · rw [hrest]
          simp
      · have hPc := no_cross_details hnm (inputStep_details hstep)
        rw [List.filter_cons, if_neg (by simpa using hPc)]
        exact ih hnd.2

/-- C10, confirmed: one diff pass emits at most one input-related change per
base required-input name for a node — the `INPUT_REMOVED` branch `continue`s
past the type check, the two branches are mutually exclusive, and (required
input names being Python dict keys, hence unique) each name is visited once.
A change "for" a name is identified by its `details` string, which embeds
the name injectively. -/
theorem c10_at_most_one_input_change (n : String) (b p : NodeClass)
    (out : List BreakingChange)
    (hok : compare_input_types n b p = Except.ok out)
    (bd : InputTypesDict) (hb : b.inputTypes = Option.some bd)
    (hnd : ((bd.required.getD []).map Prod.fst).Nodup) (name : String) :
    (out.filter (fun c => c.details = inputRemovedDetails name ∨
      c.details = inputTypeChangedDetails name)).length ≤ 1 := by
  rcases hp : p.inputTypes with _ | pd
  · unfold compare_input_types at hok
    rw [hb, hp] at hok
    cases hok
  · have hout : out = inputsLoop n (pd.required.getD [])
        (bd.required.getD []) := by
      unfold compare_input_types at hok
      rw [hb, hp] at hok
      rw [Except.ok.injEq] at hok
      exact hok.symm
    subst hout
    rw [inputsLoop_eq_filterMap]
    exact inputChanges_for_name_le_one n name _ _ hnd

/-- Witness for `c10_at_most_one_input_change`: base required inputs
`{"seed": ("INT",)}` against pr required inputs `{"seed": ("FLOAT",)}`,
counting the changes for `"seed"`. -/
theorem c10_at_most_one_input_change_witness :
    ((inputsLoop "N" [("seed", (⟨"FLOAT", []⟩ : InputSpec))]
        [("seed", ⟨"INT", []⟩)]).filter
      (fun c => c.details = inputRemovedDetails "seed" ∨
        c.details = inputTypeChangedDetails "seed")).length ≤ 1 :=
  c10_at_most_one_input_change "N"
    ⟨Option.none, Option.some ⟨Option.some [("seed", ⟨"INT", []⟩)]⟩, Option.none⟩
    ⟨Option.none, Option.some ⟨Option.some [("seed", ⟨"FLOAT", []⟩)]⟩, Option.none⟩
    (inputsLoop "N" [("seed", ⟨"FLOAT", []⟩)] [("seed", ⟨"INT", []⟩)])
    (by rfl) ⟨Option.some [("seed", ⟨"INT", []⟩)]⟩ (by rfl) (by decide) "seed"

/-! ### C9 -/

/-- Modelled from the spec's words (for comparison with `groupByNode`, which
is translated from the source): the node names as first seen while scanning
the change sequence left to right. -/
def specFirstSeenOrder (changes : List BreakingChange) : List String :=
  changes.foldl
    (fun ks c => if c.node_name ∈ ks then ks else ks ++ [c.node_name]) []

theorem specFirstSeenOrder_append (l : List BreakingChange)
    (c : BreakingChange) :
    specFirstSeenOrder (l ++ [c]) =
      if c.node_name ∈ specFirstSeenOrder l then specFirstSeenOrder l
      else specFirstSeenOrder l ++ [c.node_name] := by
  simp [specFirstSeenOrder, List.foldl_append]

theorem mem_foldl_firstSeen (n : String) :
    ∀ (l : List BreakingChange) (acc : List String),
      (n ∈ List.foldl
          (fun ks c => if c.node_name ∈ ks then ks else ks ++ [c.node_name])
          acc l ↔
        n ∈ acc ∨ n ∈ l.map (fun c => c.node_name)) := by
  intro l
  induction l with
  | nil => intro acc; simp
  | cons c rest ih =>
    intro acc
    rw [List.foldl_cons, ih]
    by_cases hm : c.node_name ∈ acc
    · rw [if_pos hm]
      simp only [List.map_cons, List.mem_cons]
      constructor
      · rintro (h | h)
        · exact Or.inl h
        · exact Or.inr (Or.inr h)
      · rintro (h | rfl | h)
        · exact Or.inl h
        · exact Or.inl hm
        · exact Or.inr h
    · rw [if_neg hm]
      simp [or_assoc]

theorem mem_specFirstSeenOrder (n : String) (l : List BreakingChange) :
    n ∈ specFirstSeenOrder l ↔ n ∈ l.map (fun c => c.node_name) := by
  unfold specFirstSeenOrder
  rw [mem_foldl_firstSeen]
  simp

theorem lookup_map_self {β : Type} (f : String → β) :
    ∀ (ks : List String) (k : String),
      List.lookup k (ks.map fun x => (x, f x)) =
        if k ∈ ks then Option.some (f k) else Option.none := by
  intro ks
  induction ks with
  | nil => intro k; simp [List.lookup]
  | cons x t ih =>
    intro k
    simp only [List.map_cons, List.lookup]
    cases hbe : k == x with
    | true =>
      have hkx : k = x := beq_iff_eq.mp hbe
      subst hkx
      simp
    | false =>
      have hkx : k ≠ x := by
        intro h
        rw [h] at hbe
        simp at hbe
      simp [ih, hkx]

theorem groupByNode_append (l : List BreakingChange) (c : BreakingChange) :
    groupByNode (l ++ [c]) = addChange (groupByNode l) c := by
  simp [groupByNode, List.foldl_append]

/-- C9, confirmed: the report's success case, and the shape of its grouping.
First conjunct: the empty change list formats to the single success line.
Second conjunct: `changes_by_node` is exactly one entry per node name in
first-seen order, each entry holding that node's changes in their original
(appended) order — `format_breaking_changes` then renders this grouping
node by node. -/
theorem c9_format_grouping :
    format_breaking_changes [] = "✅ No breaking changes detected" ∧
    ∀ changes : List BreakingChange,
      groupByNode changes =
        (specFirstSeenOrder changes).map
          (fun k => (k, changes.filter (fun c => c.node_name = k))) := by
  constructor
  · rfl
  · intro changes
    induction changes using List.reverseRecOn with
    | nil => rfl
    | append_singleton l c ih =>
      rw [groupByNode_append, ih, specFirstSeenOrder_append]
      by_cases hm : c.node_name ∈ specFirstSeenOrder l
      · rw [if_pos hm]
        have hlk : (List.lookup c.node_name
            ((specFirstSeenOrder l).map
              (fun k => (k, l.filter (fun c' => c'.node_name = k))))).isSome =
            true := by
          rw [lookup_map_self]
          rw [if_pos hm]
          rfl
        rw [addChange, if_pos hlk, List.map_map]
        refine List.map_congr_left (fun k hk => ?_)
        by_cases hkc : k = c.node_name
        · subst hkc
          simp [List.filter_append]
        · simp only [Function.comp_apply, if_neg hkc]
          have : (l ++ [c]).filter (fun c' => c'.node_name = k) =
              l.filter (fun c' => c'.node_name = k) := by
            rw [List.filter_append]
            simp [Ne.symm hkc]
          rw [this]
      · rw [if_neg hm]
        have hlk : (List.lookup c.node_name
            ((specFirstSeenOrder l).map
              (fun k => (k, l.filter (fun c' => c'.node_name = k))))).isSome =
            false := by
          rw [lookup_map_self]
          rw [if_neg hm]
          rfl
        rw [addChange, if_neg (by rw [hlk]; exact Bool.false_ne_true),
          List.map_append]
        congr 1
        · refine List.map_congr_left (fun k hk => ?_)
          have hkc : k ≠ c.node_name := fun h => hm (h ▸ hk)
          have : (l ++ [c]).filter (fun c' => c'.node_name = k) =
              l.filter (fun c' => c'.node_name = k) := by
            rw [List.filter_append]
            simp [Ne.symm hkc]
          rw [this]
        · have hnil : l.filter (fun c' => c'.node_name = c.node_name) = [] := by
            refine List.filter_eq_nil_iff.mpr (fun c' hc' => ?_)
            simp only [decide_eq_true_eq]
            intro he
            exact hm ((mem_specFirstSeenOrder _ _).mpr
              (he ▸ List.mem_map_of_mem (fun x => x.node_name) hc'))
          simp [List.filter_append, hnil]

end NodeDiff
